import Mathlib

/-!
# Verification of the TodoStore state manager

Shallow embedding of the todo-list state container of
`typescript-my-todo-app` (`src/App.tsx` together with the form components),
and proofs of the specification's claims about it.

The embedded operations are, one for one, the `useState`-updating callbacks
of the `App` component:

* `addTodo`      — `App.addTodo` (App.tsx lines 36–44)
* `toggleTodo`   — `App.toggleTodo` (App.tsx lines 50–56)
* `deleteTodo`   — `App.deleteTodo` (App.tsx lines 62–64)
* `startEditing` — `App.startEditing` (App.tsx lines 75–78)
* `setEditText`  — the `setEditText` state setter (draft updates)
* `cancelEdit`   — `App.cancelEdit` (App.tsx lines 83–86)
* `saveEdit`     — `App.saveEdit` (App.tsx lines 92–101)
* `add`          — `TodoForm.handleSubmit` (the variant with the validation
                   error state) composed with `App.addTodo`

Machine state is the triple of `App`'s three `useState` hooks.
-/

namespace TodoApp

/-- Models JavaScript `String.prototype.trim` as used by `text.trim()` in the
source: remove the longest whitespace run from both ends of the string.
(Whitespace is per `Char.isWhitespace`; the JS whitespace class is slightly
larger but the claims do not depend on the exact character set.) -/
def jsTrim (s : String) : String :=
  String.mk (List.rdropWhile Char.isWhitespace (List.dropWhile Char.isWhitespace s.data))

lemma data_mk (l : List Char) : (String.mk l).data = l := rfl

lemma get_zero_of_isPrefix {x y : List Char} (h : x <+: y)
    (hx : 0 < x.length) (hy : 0 < y.length) :
    x.get ⟨0, hx⟩ = y.get ⟨0, hy⟩ := by
  obtain ⟨r, rfl⟩ := h
  cases x with
  | nil => simp at hx
  | cons a t => rfl

lemma dropWhile_fixed_of_rdropWhile (w : Char → Bool) (A : List Char)
    (hA : List.dropWhile w A = A) :
    List.dropWhile w (List.rdropWhile w A) = List.rdropWhile w A := by
  rw [List.dropWhile_eq_self_iff]
  intro hl
  have hp : List.rdropWhile w A <+: A := List.rdropWhile_prefix w A
  have hl' : 0 < A.length := lt_of_lt_of_le hl hp.length_le
  rw [get_zero_of_isPrefix hp hl hl']
  exact List.dropWhile_eq_self_iff.mp hA hl'

/-- JS `trim` is idempotent: trimming a trimmed string changes nothing. -/
lemma jsTrim_idem (s : String) : jsTrim (jsTrim s) = jsTrim s := by
  have hfix : List.dropWhile Char.isWhitespace
      (List.rdropWhile Char.isWhitespace (List.dropWhile Char.isWhitespace s.data)) =
      List.rdropWhile Char.isWhitespace (List.dropWhile Char.isWhitespace s.data) :=
    dropWhile_fixed_of_rdropWhile _ _ (List.dropWhile_idempotent _ _)
  simp only [jsTrim, data_mk, hfix, List.rdropWhile_idempotent]

/-- The `Todo` interface from `src/types/Todo.ts`: `id: number`,
`text: string`, `completed: boolean`, `createdAt: Date`.  Ids and timestamps
come from `Date.now()` / `new Date()`, modelled as natural numbers. -/
structure Todo where
  id : Nat
  text : String
  completed : Bool
  createdAt : Nat
deriving DecidableEq

/-- The three `useState` hooks of the `App` component (App.tsx lines 20–26):
the todo list, the id of the todo being edited (`null` when not editing),
and the draft text of the todo being edited. -/
structure AppState where
  todos : List Todo
  editingId : Option Nat
  editText : String
deriving DecidableEq

/-- `useState<Todo[]>([])`, `useState<number | null>(null)`,
`useState<string>('')`: the initial state of the component. -/
def initialState : AppState :=
  { todos := [], editingId := none, editText := "" }

/-- `App.addTodo` (App.tsx lines 36–44): append a new todo with
`id: Date.now()`, `text: text.trim()`, `completed: false`,
`createdAt: new Date()`.  `now` stands for the single instant at which the
call runs (both `Date.now()` and `new Date()`). -/
def addTodo (now : Nat) (text : String) (s : AppState) : AppState :=
  { s with todos := s.todos ++
      [{ id := now, text := jsTrim text, completed := false, createdAt := now }] }

/-- `App.toggleTodo` (App.tsx lines 50–56): map over the list, flipping
`completed` on the todo whose id matches. -/
def toggleTodo (id : Nat) (s : AppState) : AppState :=
  { s with todos := s.todos.map fun todo =>
      if todo.id = id then { todo with completed := !todo.completed } else todo }

/-- `App.deleteTodo` (App.tsx lines 62–64): keep the todos whose id differs. -/
def deleteTodo (id : Nat) (s : AppState) : AppState :=
  { s with todos := s.todos.filter fun todo => todo.id != id }

/-- `App.startEditing` (App.tsx lines 75–78): `setEditingId(id);
setEditText(currentText)`. -/
def startEditing (id : Nat) (currentText : String) (s : AppState) : AppState :=
  { s with editingId := some id, editText := currentText }

/-- The `setEditText` state setter, as wired to `EditTodoForm`'s `onChange`:
replace the draft text verbatim. -/
def setEditText (text : String) (s : AppState) : AppState :=
  { s with editText := text }

/-- `App.cancelEdit` (App.tsx lines 83–86): `setEditingId(null);
setEditText('')`. -/
def cancelEdit (s : AppState) : AppState :=
  { s with editingId := none, editText := "" }

/-- `App.saveEdit` (App.tsx lines 92–101): when `editingId !== null` and
`editText.trim()` is truthy (non-empty), replace the matching todo's text
with the trimmed draft and call `cancelEdit`; otherwise do nothing. -/
def saveEdit (s : AppState) : AppState :=
  match s.editingId with
  | some editingId =>
      if jsTrim s.editText ≠ "" then
        cancelEdit { s with todos := s.todos.map fun todo =>
          if todo.id = editingId then { todo with text := jsTrim s.editText } else todo }
      else s
  | none => s

/-- `TodoForm.handleSubmit` (src/unnamed/part_000, the variant holding an
error state) composed with `App.addTodo`: trim the raw input; on empty set
the error message `'Todo cannot be empty.'` and do not call `onAddTodo`;
otherwise call `onAddTodo(trimmedInput)`. -/
def add (now : Nat) (raw : String) (s : AppState) : Except String AppState :=
  if jsTrim raw = "" then Except.error "Todo cannot be empty."
  else Except.ok (addTodo now (jsTrim raw) s)

/-- State effect of one form submission with input `raw`: on the error path
the component state is left untouched. -/
def addSubmit (now : Nat) (raw : String) (s : AppState) : AppState :=
  match add now raw s with
  | Except.ok s' => s'
  | Except.error _ => s

/-- `totalTodos` (App.tsx line 107). -/
def totalTodos (s : AppState) : Nat := s.todos.length

/-- `completedTodos` (App.tsx line 108). -/
def completedTodos (s : AppState) : Nat :=
  (s.todos.filter fun todo => todo.completed).length

/-- `remainingTodos` (App.tsx line 109). -/
def remainingTodos (s : AppState) : Nat := totalTodos s - completedTodos s

/-- States reachable from the initial empty state by the public operations
of the store, with the creation-time clock (`Date.now()`) free to return any
value at any call. -/
inductive Reachable : AppState → Prop where
  | init : Reachable initialState
  | add (now : Nat) (raw : String) {s : AppState} :
      Reachable s → Reachable (addSubmit now raw s)
  | toggle (id : Nat) {s : AppState} :
      Reachable s → Reachable (toggleTodo id s)
  | delete (id : Nat) {s : AppState} :
      Reachable s → Reachable (deleteTodo id s)
  | startEdit (id : Nat) (currentText : String) {s : AppState} :
      Reachable s → Reachable (startEditing id currentText s)
  | updateDraft (text : String) {s : AppState} :
      Reachable s → Reachable (setEditText text s)
  | commit {s : AppState} : Reachable s → Reachable (saveEdit s)
  | cancel {s : AppState} : Reachable s → Reachable (cancelEdit s)

/-- States reachable when the creation-time clock is strictly monotone: the
index is a lower bound on the next clock reading, and each `add` consumes a
clock value at least that bound. -/
inductive ReachableMono : Nat → AppState → Prop where
  | init : ReachableMono 0 initialState
  | add (now : Nat) (raw : String) {c : Nat} {s : AppState} :
      ReachableMono c s → c ≤ now → ReachableMono (now + 1) (addSubmit now raw s)
  | toggle (id : Nat) {c : Nat} {s : AppState} :
      ReachableMono c s → ReachableMono c (toggleTodo id s)
  | delete (id : Nat) {c : Nat} {s : AppState} :
      ReachableMono c s → ReachableMono c (deleteTodo id s)
  | startEdit (id : Nat) (currentText : String) {c : Nat} {s : AppState} :
      ReachableMono c s → ReachableMono c (startEditing id currentText s)
  | updateDraft (text : String) {c : Nat} {s : AppState} :
      ReachableMono c s → ReachableMono c (setEditText text s)
  | commit {c : Nat} {s : AppState} : ReachableMono c s → ReachableMono c (saveEdit s)
  | cancel {c : Nat} {s : AppState} : ReachableMono c s → ReachableMono c (cancelEdit s)

/-- Helper shared by several claims: when the active session's target id
matches no todo in the list and the draft does not trim to empty, `saveEdit`
maps the identity over the list and clears the session. -/
lemma saveEdit_absent_target (s : AppState) (targetId : Nat)
    (hid : s.editingId = some targetId)
    (habs : ∀ t ∈ s.todos, t.id ≠ targetId)
    (hne : jsTrim s.editText ≠ "") :
    (saveEdit s).todos = s.todos ∧
      (saveEdit s).editingId = none ∧ (saveEdit s).editText = "" := by
  refine ⟨?_, by simp [saveEdit, hid, hne, cancelEdit], by simp [saveEdit, hid, hne, cancelEdit]⟩
  simp only [saveEdit, hid, hne, if_true, ite_not, if_neg hne, cancelEdit]
  calc (s.todos.map fun todo =>
          if todo.id = targetId then { todo with text := jsTrim s.editText } else todo)
      = s.todos.map id := List.map_congr_left fun t ht => by simp [habs t ht]
    _ = s.todos := List.map_id s.todos

/-- Claim C1: for every input string whose trim is empty, `add` fails with
the caller-visible validation error and performs no mutation: the component
state (todo collection and edit session) is exactly as before the call. -/
theorem add_empty_input_rejected (now : Nat) (raw : String) (s : AppState)
    (h : jsTrim raw = "") :
    add now raw s = Except.error "Todo cannot be empty." ∧
      addSubmit now raw s = s := by
  constructor
  · simp [add, h]
  · simp [addSubmit, add, h]

/-- Witness for C1 at the concrete whitespace-only input `"   "`. -/
theorem add_empty_input_rejected_instance :
    jsTrim "   " = "" ∧
      (add 1 "   " initialState = Except.error "Todo cannot be empty." ∧
        addSubmit 1 "   " initialState = initialState) :=
  ⟨by decide, add_empty_input_rejected 1 "   " initialState (by decide)⟩

/-- Claim C5: for every string that is non-empty after trimming, `add`
appends exactly one new record at the end of the collection, with text equal
to the trimmed input, `completed = false` and `createdAt` the current time;
the pre-existing records, their order, and the edit session are unchanged,
and the total grows by exactly 1. -/
theorem add_appends_one_record (now : Nat) (raw : String) (s : AppState)
    (h : jsTrim raw ≠ "") :
    add now raw s = Except.ok { s with todos := s.todos ++
        [{ id := now, text := jsTrim raw, completed := false, createdAt := now }] } ∧
      addSubmit now raw s = { s with todos := s.todos ++
        [{ id := now, text := jsTrim raw, completed := false, createdAt := now }] } ∧
      totalTodos (addSubmit now raw s) = totalTodos s + 1 := by
  have h1 : add now raw s = Except.ok { s with todos := s.todos ++
      [{ id := now, text := jsTrim raw, completed := false, createdAt := now }] } := by
    simp [add, h, addTodo, jsTrim_idem]
  have h2 : addSubmit now raw s = { s with todos := s.todos ++
      [{ id := now, text := jsTrim raw, completed := false, createdAt := now }] } := by
    simp [addSubmit, h1]
  refine ⟨h1, h2, ?_⟩
  simp [h2, totalTodos]

/-- Witness for C5 at the concrete input `"  Buy milk "`. -/
theorem add_appends_one_record_instance :
    jsTrim "  Buy milk " ≠ "" ∧
      (add 7 "  Buy milk " initialState = Except.ok { initialState with todos :=
          initialState.todos ++
            [{ id := 7, text := jsTrim "  Buy milk ", completed := false, createdAt := 7 }] } ∧
        addSubmit 7 "  Buy milk " initialState = { initialState with todos :=
          initialState.todos ++
            [{ id := 7, text := jsTrim "  Buy milk ", completed := false, createdAt := 7 }] } ∧
        totalTodos (addSubmit 7 "  Buy milk " initialState) = totalTodos initialState + 1) :=
  ⟨by decide, add_appends_one_record 7 "  Buy milk " initialState (by decide)⟩

/-- Claim C6: with an active edit session whose target record exists and
whose draft trims to a non-empty string, `saveEdit` replaces the target
record's text with the trimmed draft (all other records unchanged) and
clears the session. -/
theorem saveEdit_commits_trimmed_draft (s : AppState) (targetId : Nat)
    (hid : s.editingId = some targetId)
    (_hmem : ∃ t ∈ s.todos, t.id = targetId)
    (hne : jsTrim s.editText ≠ "") :
    (saveEdit s).todos = s.todos.map (fun todo =>
        if todo.id = targetId then { todo with text := jsTrim s.editText } else todo) ∧
      (saveEdit s).editingId = none ∧ (saveEdit s).editText = "" := by
  refine ⟨?_, ?_, ?_⟩ <;> simp [saveEdit, hid, hne, cancelEdit]

/-- Witness for C6: the `startEdit(5, "x")`, `updateDraft("bar")`,
`commitEdit()` scenario on a one-record store — the record's text becomes
`"bar"` and the session is cleared. -/
theorem saveEdit_commits_trimmed_draft_instance :
    (saveEdit ⟨[⟨5, "x", false, 5⟩], some 5, "bar"⟩).todos = [⟨5, "bar", false, 5⟩] ∧
      (saveEdit ⟨[⟨5, "x", false, 5⟩], some 5, "bar"⟩).editingId = none ∧
      (saveEdit ⟨[⟨5, "x", false, 5⟩], some 5, "bar"⟩).editText = "" := by
  have h := saveEdit_commits_trimmed_draft ⟨[⟨5, "x", false, 5⟩], some 5, "bar"⟩ 5
    rfl ⟨⟨5, "x", false, 5⟩, by simp, rfl⟩ (by decide)
  exact ⟨by rw [h.1]; decide, h.2.1, h.2.2⟩

/-- Claim C7: with an active edit session whose draft trims to the empty
string, `saveEdit` is a complete no-op: no record changes and the session
remains active with the same target and draft (nothing is cleared, no error
is raised). -/
theorem saveEdit_whitespace_draft_noop (s : AppState) (targetId : Nat)
    (hid : s.editingId = some targetId)
    (hws : jsTrim s.editText = "") :
    saveEdit s = s := by
  simp [saveEdit, hid, hws]

/-- Witness for C7: committing the whitespace draft `"   "` leaves the whole
state, session included, untouched. -/
theorem saveEdit_whitespace_draft_noop_instance :
    jsTrim (AppState.editText ⟨[⟨1, "a", false, 1⟩], some 1, "   "⟩) = "" ∧
      saveEdit ⟨[⟨1, "a", false, 1⟩], some 1, "   "⟩ = ⟨[⟨1, "a", false, 1⟩], some 1, "   "⟩ :=
  ⟨by decide, saveEdit_whitespace_draft_noop ⟨[⟨1, "a", false, 1⟩], some 1, "   "⟩ 1 rfl (by decide)⟩

/-- Claim C9: with an active edit session whose target id matches no record
and whose draft trims to a non-empty string, `saveEdit` leaves the
collection unchanged but still clears the session — it is not a no-op on
the session state. -/
theorem saveEdit_dangling_target_clears_session (s : AppState) (targetId : Nat)
    (hid : s.editingId = some targetId)
    (habs : ∀ t ∈ s.todos, t.id ≠ targetId)
    (hne : jsTrim s.editText ≠ "") :
    (saveEdit s).todos = s.todos ∧
      (saveEdit s).editingId = none ∧ (saveEdit s).editText = "" :=
  saveEdit_absent_target s targetId hid habs hne

/-- Witness for C9: a session targeting the absent id 9 with draft `"bar"`
commits to an unchanged collection and a cleared session. -/
theorem saveEdit_dangling_target_clears_session_instance :
    (saveEdit ⟨[⟨1, "a", false, 1⟩], some 9, "bar"⟩).todos = [⟨1, "a", false, 1⟩] ∧
      (saveEdit ⟨[⟨1, "a", false, 1⟩], some 9, "bar"⟩).editingId = none ∧
      (saveEdit ⟨[⟨1, "a", false, 1⟩], some 9, "bar"⟩).editText = "" :=
  saveEdit_dangling_target_clears_session ⟨[⟨1, "a", false, 1⟩], some 9, "bar"⟩ 9
    rfl (by decide) (by decide)

/-- Claim C10: `startEditing` performs no existence check and never fails:
for every id and every text it yields an active session with exactly that
target and draft (replacing any prior session) and leaves the collection
untouched — even when no record with that id exists. -/
theorem startEditing_unconditional (s : AppState) (id : Nat) (currentText : String) :
    (startEditing id currentText s).editingId = some id ∧
      (startEditing id currentText s).editText = currentText ∧
      (startEditing id currentText s).todos = s.todos :=
  ⟨rfl, rfl, rfl⟩

/-- Claim C8: `toggleTodo` on an absent id leaves the entire state unchanged
(a silent no-op); on a present id it flips exactly the `completed` flag of
the matching record, leaving every record's id, text and creation time, the
list length and order, and the edit session unchanged. -/
theorem toggleTodo_flips_only_completed (s : AppState) (id : Nat) :
    ((∀ t ∈ s.todos, t.id ≠ id) → toggleTodo id s = s) ∧
      (toggleTodo id s).editingId = s.editingId ∧
      (toggleTodo id s).editText = s.editText ∧
      (toggleTodo id s).todos.length = s.todos.length ∧
      ∀ (i : Nat) (hi : i < s.todos.length) (hi' : i < (toggleTodo id s).todos.length),
        ((toggleTodo id s).todos.get ⟨i, hi'⟩).id = (s.todos.get ⟨i, hi⟩).id ∧
        ((toggleTodo id s).todos.get ⟨i, hi'⟩).text = (s.todos.get ⟨i, hi⟩).text ∧
        ((toggleTodo id s).todos.get ⟨i, hi'⟩).createdAt = (s.todos.get ⟨i, hi⟩).createdAt ∧
        ((toggleTodo id s).todos.get ⟨i, hi'⟩).completed =
          (if (s.todos.get ⟨i, hi⟩).id = id then !(s.todos.get ⟨i, hi⟩).completed
           else (s.todos.get ⟨i, hi⟩).completed) := by
  refine ⟨?_, rfl, rfl, by simp [toggleTodo], ?_⟩
  · intro h
    have hmap : (s.todos.map fun todo =>
        if todo.id = id then { todo with completed := !todo.completed } else todo) = s.todos :=
      (List.map_congr_left fun t ht => by simp [h t ht]).trans (List.map_id s.todos)
    show { s with todos := _ } = s
    rw [hmap]
  · intro i hi hi'
    simp only [List.get_eq_getElem]
    have hget : (toggleTodo id s).todos[i] =
        (fun todo => if todo.id = id then { todo with completed := !todo.completed } else todo)
          (s.todos[i]) := by
      simp [toggleTodo]
    rw [hget]
    by_cases hc : (s.todos[i]).id = id <;> simp [hc]

/-- Witness for C8: on the two-record store `[⟨1,"a",false,1⟩, ⟨2,"b",true,2⟩]`,
toggling the absent id 9 is a state no-op, and toggling id 2 keeps the
length and flips exactly the second record's `completed` flag. -/
theorem toggleTodo_flips_only_completed_instance :
    toggleTodo 9 ⟨[⟨1, "a", false, 1⟩, ⟨2, "b", true, 2⟩], none, ""⟩ =
        ⟨[⟨1, "a", false, 1⟩, ⟨2, "b", true, 2⟩], none, ""⟩ ∧
      (toggleTodo 2 ⟨[⟨1, "a", false, 1⟩, ⟨2, "b", true, 2⟩], none, ""⟩).todos.length = 2 ∧
      ((toggleTodo 2 ⟨[⟨1, "a", false, 1⟩, ⟨2, "b", true, 2⟩], none, ""⟩).todos.get
          ⟨1, by decide⟩).completed = false ∧
      ((toggleTodo 2 ⟨[⟨1, "a", false, 1⟩, ⟨2, "b", true, 2⟩], none, ""⟩).todos.get
          ⟨1, by decide⟩).text = "b" := by
  refine ⟨(toggleTodo_flips_only_completed
      ⟨[⟨1, "a", false, 1⟩, ⟨2, "b", true, 2⟩], none, ""⟩ 9).1 (by decide),
    (toggleTodo_flips_only_completed
      ⟨[⟨1, "a", false, 1⟩, ⟨2, "b", true, 2⟩], none, ""⟩ 2).2.2.2.1, ?_, ?_⟩
  · exact ((toggleTodo_flips_only_completed
      ⟨[⟨1, "a", false, 1⟩, ⟨2, "b", true, 2⟩], none, ""⟩ 2).2.2.2.2 1
        (by decide) (by decide)).2.2.2
  · exact ((toggleTodo_flips_only_completed
      ⟨[⟨1, "a", false, 1⟩, ⟨2, "b", true, 2⟩], none, ""⟩ 2).2.2.2.2 1
        (by decide) (by decide)).2.1

/-- Counterexample to claim C2 as stated: after `add` (at clock 1),
`startEdit(1, "x")`, `delete(1)`, the state is reachable, the collection is
empty, yet the edit session still targets id 1 with draft `"x"` — `delete`
did not clear the session, and the session references a record that no
longer exists. -/
theorem delete_leaves_session_dangling :
    Reachable (deleteTodo 1 (startEditing 1 "x" (addSubmit 1 "x" initialState))) ∧
      (deleteTodo 1 (startEditing 1 "x" (addSubmit 1 "x" initialState))).editingId = some 1 ∧
      (deleteTodo 1 (startEditing 1 "x" (addSubmit 1 "x" initialState))).editText = "x" ∧
      (deleteTodo 1 (startEditing 1 "x" (addSubmit 1 "x" initialState))).todos = [] :=
  ⟨Reachable.delete 1 (Reachable.startEdit 1 "x" (Reachable.add 1 "x" Reachable.init)),
    by decide, by decide, by decide⟩

/-- Claim C2 (amended): `delete(id)` removes the record but leaves the edit
session untouched even when the session targets `id`, so a session can
reference a deleted record; a `commitEdit` issued after such a delete (with
a draft not trimming to empty) leaves the collection unchanged and clears
the session. -/
theorem delete_then_commit_behaviour (s : AppState) (id : Nat)
    (hid : s.editingId = some id) (hne : jsTrim s.editText ≠ "") :
    (deleteTodo id s).editingId = some id ∧
      (deleteTodo id s).editText = s.editText ∧
      (∀ t ∈ (deleteTodo id s).todos, t.id ≠ id) ∧
      (saveEdit (deleteTodo id s)).todos = (deleteTodo id s).todos ∧
      (saveEdit (deleteTodo id s)).editingId = none ∧
      (saveEdit (deleteTodo id s)).editText = "" := by
  have habs : ∀ t ∈ (deleteTodo id s).todos, t.id ≠ id := by
    intro t ht
    have := List.of_mem_filter ht
    simpa using this
  have hsave := saveEdit_absent_target (deleteTodo id s) id hid habs hne
  exact ⟨hid, rfl, habs, hsave.1, hsave.2.1, hsave.2.2⟩

/-- Witness for C2 (amended), on the one-record store with an active session
targeting that record. -/
theorem delete_then_commit_behaviour_instance :
    (deleteTodo 1 ⟨[⟨1, "x", false, 1⟩], some 1, "x"⟩).editingId = some 1 ∧
      (saveEdit (deleteTodo 1 ⟨[⟨1, "x", false, 1⟩], some 1, "x"⟩)).todos =
        (deleteTodo 1 ⟨[⟨1, "x", false, 1⟩], some 1, "x"⟩).todos ∧
      (saveEdit (deleteTodo 1 ⟨[⟨1, "x", false, 1⟩], some 1, "x"⟩)).editingId = none := by
  have h := delete_then_commit_behaviour ⟨[⟨1, "x", false, 1⟩], some 1, "x"⟩ 1 rfl (by decide)
  exact ⟨h.1, h.2.2.2.1, h.2.2.2.2.1⟩

lemma textsOk_addSubmit (now : Nat) (raw : String) {s : AppState}
    (ih : ∀ t ∈ s.todos, jsTrim t.text = t.text ∧ t.text ≠ "") :
    ∀ t ∈ (addSubmit now raw s).todos, jsTrim t.text = t.text ∧ t.text ≠ "" := by
  intro t ht
  by_cases hr : jsTrim raw = ""
  · have hs : addSubmit now raw s = s := by simp [addSubmit, add, hr]
    rw [hs] at ht
    exact ih t ht
  · have hs : addSubmit now raw s = { s with todos := s.todos ++
        [{ id := now, text := jsTrim (jsTrim raw), completed := false, createdAt := now }] } := by
      simp [addSubmit, add, hr, addTodo]
    rw [hs] at ht
    rcases List.mem_append.mp ht with h1 | h1
    · exact ih t h1
    · have h2 : t = ⟨now, jsTrim (jsTrim raw), false, now⟩ := by simpa using h1
      subst h2
      refine ⟨?_, ?_⟩
      · show jsTrim (jsTrim (jsTrim raw)) = jsTrim (jsTrim raw)
        rw [jsTrim_idem]
      · show jsTrim (jsTrim raw) ≠ ""
        rw [jsTrim_idem]
        exact hr

lemma textsOk_toggle (id : Nat) {s : AppState}
    (ih : ∀ t ∈ s.todos, jsTrim t.text = t.text ∧ t.text ≠ "") :
    ∀ t ∈ (toggleTodo id s).todos, jsTrim t.text = t.text ∧ t.text ≠ "" := by
  intro t ht
  rcases List.mem_map.mp ht with ⟨t0, ht0, rfl⟩
  by_cases hc : t0.id = id <;> simpa [hc] using ih t0 ht0

lemma textsOk_saveEdit {s : AppState}
    (ih : ∀ t ∈ s.todos, jsTrim t.text = t.text ∧ t.text ≠ "") :
    ∀ t ∈ (saveEdit s).todos, jsTrim t.text = t.text ∧ t.text ≠ "" := by
  intro t ht
  rcases heq : s.editingId with _ | eid
  · simp only [saveEdit, heq] at ht
    exact ih t ht
  · by_cases hne : jsTrim s.editText = ""
    · simp only [saveEdit, heq, hne, ne_eq, not_true_eq_false, if_false] at ht
      exact ih t ht
    · simp only [saveEdit, heq, hne, ne_eq, not_false_eq_true, if_true, cancelEdit] at ht
      rcases List.mem_map.mp ht with ⟨t0, ht0, rfl⟩
      by_cases hc : t0.id = eid
      · refine ⟨?_, ?_⟩
        · show jsTrim ((if t0.id = eid then { t0 with text := jsTrim s.editText }
              else t0).text) = _
          simp [hc, jsTrim_idem]
        · show (if t0.id = eid then { t0 with text := jsTrim s.editText } else t0).text ≠ ""
          simpa [hc, jsTrim_idem] using hne
      · simpa [hc] using ih t0 ht0

/-- Claim C3 (amended): in every state reachable by the public operations
from the initial empty state, every record's text is non-empty and equal to
its own trim (no leading or trailing whitespace).  No 200-character length
bound holds — see the counterexample below. -/
theorem reachable_texts_trimmed_nonempty (s : AppState) (h : Reachable s) :
    ∀ t ∈ s.todos, jsTrim t.text = t.text ∧ t.text ≠ "" := by
  induction h with
  | init => intro t ht; simp [initialState] at ht
  | add now raw h ih => exact textsOk_addSubmit now raw ih
  | toggle id h ih => exact textsOk_toggle id ih
  | delete id h ih => exact fun t ht => ih t (List.mem_of_mem_filter ht)
  | startEdit id currentText h ih => exact ih
  | updateDraft text h ih => exact ih
  | commit h ih => exact textsOk_saveEdit ih
  | cancel h ih => exact ih

/-- Witness for C3 (amended): the record stored by a concrete `add` of
`" hi "` is trimmed and non-empty. -/
theorem reachable_texts_trimmed_nonempty_instance :
    jsTrim (Todo.text ⟨7, "hi", false, 7⟩) = Todo.text ⟨7, "hi", false, 7⟩ ∧
      Todo.text ⟨7, "hi", false, 7⟩ ≠ "" :=
  reachable_texts_trimmed_nonempty (addSubmit 7 " hi " initialState)
    (Reachable.add 7 " hi " Reachable.init) ⟨7, "hi", false, 7⟩ (by decide)

/-- A 201-character string, used to exhibit a record whose text exceeds the
claimed 200-character maximum. -/
def longText : String := String.mk (List.replicate 201 'b')

/-- Counterexample to claim C3 as stated: via `startEdit`, a 201-character
draft and `commitEdit` (the edit input enforces no length cap), the store
reaches a state whose single record has a text of length 201 > 200. -/
theorem reachable_text_longer_than_200 :
    Reachable (saveEdit (setEditText longText
        (startEditing 0 "a" (addSubmit 0 "a" initialState)))) ∧
      (saveEdit (setEditText longText
        (startEditing 0 "a" (addSubmit 0 "a" initialState)))).todos =
        [{ id := 0, text := longText, completed := false, createdAt := 0 }] ∧
      200 < longText.length :=
  ⟨Reachable.commit (Reachable.updateDraft longText
      (Reachable.startEdit 0 "a" (Reachable.add 0 "a" Reachable.init))),
    by set_option maxRecDepth 20000 in decide,
    by set_option maxRecDepth 20000 in decide⟩

lemma ids_toggle (id : Nat) (s : AppState) :
    (toggleTodo id s).todos.map Todo.id = s.todos.map Todo.id := by
  simp only [toggleTodo, List.map_map]
  refine List.map_congr_left fun t ht => ?_
  by_cases hc : t.id = id <;> simp [Function.comp, hc]

lemma ids_saveEdit (s : AppState) :
    (saveEdit s).todos.map Todo.id = s.todos.map Todo.id := by
  rcases heq : s.editingId with _ | eid
  · simp only [saveEdit, heq]
  · by_cases hne : jsTrim s.editText = ""
    · simp only [saveEdit, heq, hne, ne_eq, not_true_eq_false, if_false]
    · simp only [saveEdit, heq, hne, ne_eq, not_false_eq_true, if_true, cancelEdit,
        List.map_map]
      refine List.map_congr_left fun t ht => ?_
      by_cases hc : t.id = eid <;> simp [Function.comp, hc]

lemma ids_delete_sublist (id : Nat) (s : AppState) :
    List.Sublist ((deleteTodo id s).todos.map Todo.id) (s.todos.map Todo.id) :=
  List.Sublist.map Todo.id (List.filter_sublist s.todos)

lemma ids_bound_addSubmit (now : Nat) (raw : String) {c : Nat} {s : AppState}
    (hle : c ≤ now)
    (ih : (∀ a ∈ s.todos.map Todo.id, a < c) ∧ (s.todos.map Todo.id).Nodup) :
    (∀ a ∈ (addSubmit now raw s).todos.map Todo.id, a < now + 1) ∧
      ((addSubmit now raw s).todos.map Todo.id).Nodup := by
  by_cases hr : jsTrim raw = ""
  · have hs : addSubmit now raw s = s := by simp [addSubmit, add, hr]
    rw [hs]
    exact ⟨fun a ha => by have := ih.1 a ha; omega, ih.2⟩
  · have hs : addSubmit now raw s = { s with todos := s.todos ++
        [{ id := now, text := jsTrim (jsTrim raw), completed := false, createdAt := now }] } := by
      simp [addSubmit, add, hr, addTodo]
    rw [hs]
    simp only [List.map_append, List.map_cons, List.map_nil]
    constructor
    · intro a ha
      rcases List.mem_append.mp ha with h1 | h1
      · have := ih.1 a h1; omega
      · have h2 : a = now := by simpa using h1
        omega
    · rw [List.nodup_append]
      refine ⟨ih.2, List.nodup_singleton now, ?_⟩
      intro a ha hb
      have h2 : a = now := by simpa using hb
      have := ih.1 a ha
      omega

/-- Claim C4 (amended): when the creation-time clock is strictly monotone
across `add` calls (each call's `Date.now()` at least the bound left by the
previous call), the ids of the records in every reachable state are pairwise
distinct.  Without that assumption uniqueness fails — see the
counterexample below. -/
theorem mono_clock_ids_nodup (c : Nat) (s : AppState) (h : ReachableMono c s) :
    (s.todos.map Todo.id).Nodup := by
  suffices hs : (∀ a ∈ s.todos.map Todo.id, a < c) ∧ (s.todos.map Todo.id).Nodup from hs.2
  induction h with
  | init => simp [initialState]
  | add now raw h hle ih => exact ids_bound_addSubmit now raw hle ih
  | toggle id h ih => rw [ids_toggle]; exact ih
  | delete id h ih =>
      exact ⟨fun a ha => ih.1 a (List.Sublist.subset (ids_delete_sublist id _) ha),
        List.Nodup.sublist (ids_delete_sublist id _) ih.2⟩
  | startEdit id currentText h ih => exact ih
  | updateDraft text h ih => exact ih
  | commit h ih => rw [ids_saveEdit]; exact ih
  | cancel h ih => exact ih

/-- Witness for C4 (amended): two adds at strictly increasing clock values 3
and 5 leave distinct ids. -/
theorem mono_clock_ids_nodup_instance :
    ((addSubmit 5 "b" (addSubmit 3 "a" initialState)).todos.map Todo.id).Nodup :=
  mono_clock_ids_nodup 6 (addSubmit 5 "b" (addSubmit 3 "a" initialState))
    (ReachableMono.add 5 "b"
      (ReachableMono.add 3 "a" ReachableMono.init (by decide)) (by decide))

/-- Counterexample to claim C4 as stated: if the millisecond clock returns 5
on two consecutive `add` calls — a behaviour of the id source the claim
quantifies over — the reachable state holds two records that share id 5. -/
theorem reachable_duplicate_ids :
    Reachable (addSubmit 5 "b" (addSubmit 5 "a" initialState)) ∧
      (addSubmit 5 "b" (addSubmit 5 "a" initialState)).todos.map Todo.id = [5, 5] ∧
      ¬ ((addSubmit 5 "b" (addSubmit 5 "a" initialState)).todos.map Todo.id).Nodup :=
  ⟨Reachable.add 5 "b" (Reachable.add 5 "a" Reachable.init), by decide, by decide⟩

end TodoApp
